import Mathlib

/-!
# Verification of the `lore-rag` corpus parser, intent classifier and retrieval pipeline

This file gives a shallow embedding, in Lean 4, of the core of the `lore-rag`
crate (`src/lore-rag/src/parser.rs`, `types.rs`, `retrieval.rs`, `lib.rs`) and
proves properties of the embedded definitions.

The embedding is faithful to the Rust source:
* `Json` mirrors `serde_json::Value` (numbers are irrelevant to every property
  below, so they are carried as `Int`).
* `collectItems` mirrors `parser::collect_items`, with the two `&mut`
  parameters (`out`, `path`) turned into explicit state threading.
* The embedding model (`candle` BERT encoder) is external FFI-heavy code; its
  `embed` operation is taken as a parameter `String → Except String (List ℚ)`,
  faithful to its Rust signature `fn embed(&self, &str) -> Result<Vec<f32>, E>`.
* The HNSW index (`hnsw_rs` library, external to this repository) is modelled
  by the list of `(vector, id)` insertions it receives, and its `search`
  operation — library code — is an oracle parameter returning `(id, distance)`
  neighbours.  Distances are carried as `ℚ`, and the `{:.3}` float formatting
  of similarities is an abstract parameter `fmt3 : ℚ → String`.
-/

namespace LoreRag

/-- JSON values, mirroring `serde_json::Value`.  Objects are association
lists; the parser only ever reads objects through keyed lookup. -/
inductive Json where
  | null : Json
  | bool : Bool → Json
  | num : Int → Json
  | str : String → Json
  | arr : List Json → Json
  | obj : List (String × Json) → Json

/-- Keyed lookup in an object, mirroring `serde_json::Map::get` (first
matching key wins; `serde_json` maps have unique keys). -/
def jget (fields : List (String × Json)) (k : String) : Option Json :=
  match fields with
  | [] => none
  | (k', v) :: rest => if k' = k then some v else jget rest k

/-- Mirrors `serde_json::Value::as_str`. -/
def Json.asStr : Json → Option String
  | .str s => some s
  | _ => none

/-- Mirrors `types.rs` `ItemType`. -/
inductive ItemType where
  | world
  | region
  | location
  | character
  | event
  | faction
  | unknown
deriving DecidableEq, BEq, Inhabited

/-- Mirrors `ItemType::as_str`. -/
def ItemType.as_str : ItemType → String
  | .world => "World"
  | .region => "Region"
  | .location => "Location"
  | .character => "Character"
  | .event => "Event"
  | .faction => "Faction"
  | .unknown => "Unknown"

/-- Mirrors `types.rs` `Item`. -/
structure Item where
  id : Nat
  name : String
  text : String
  vec : List ℚ
  itemType : ItemType
  parentPath : String
  hierarchyLevel : Nat
deriving DecidableEq

/-- Mirrors `Item::display`. -/
def Item.display (it : Item) : String :=
  if it.parentPath = "" then
    "[" ++ it.itemType.as_str ++ "] " ++ it.name ++ " : " ++ it.text
  else
    "[" ++ it.itemType.as_str ++ "] " ++ it.name ++ " (in '" ++ it.parentPath ++ "') : " ++ it.text

/-- The abstract embedding operation of `embeddings.rs`
(`EmbeddingModel::embed`). -/
abbrev Embed := String → Except String (List ℚ)

/-- The fixed `hierarchy_keys` table of `parser.rs` `collect_items`, in
source order. -/
def hierarchyKeys : List (String × ItemType) :=
  [("worlds", ItemType.world),
   ("regions", ItemType.region),
   ("locations", ItemType.location),
   ("characters", ItemType.character),
   ("events", ItemType.event),
   ("factions", ItemType.faction)]

theorem sizeOf_jget {fields : List (String × Json)} {k : String} {v : Json}
    (h : jget fields k = some v) : sizeOf v < sizeOf fields := by
  induction fields with
  | nil => simp [jget] at h
  | cons kv rest ih =>
    obtain ⟨k', v'⟩ := kv
    by_cases hk : k' = k
    · simp [jget, hk] at h
      subst h
      simp
      omega
    · simp [jget, hk] at h
      have := ih h
      simp
      omega

mutual

/-- Mirrors `parser.rs` `collect_items`.  The Rust function mutates `out`
and `path`; here both are threaded explicitly and returned. -/
def collectItems (embed : Embed) (value : Json) (out : List Item)
    (path : List String) (currentType : ItemType) :
    Except String (List Item × List String) :=
  match value with
  | .obj fields =>
    let entity : Except String (List Item × List String) :=
      match jget fields "name" with
      | none => .ok (out, path)
      | some nv =>
        match nv.asStr with
        | none => .error "The 'name' field must be a string"
        | some name =>
          let desc := ((jget fields "description").bind Json.asStr).getD ""
          let text := if desc = "" then name else name ++ ": " ++ desc
          match embed text with
          | .error e => .error ("Error embedding '" ++ name ++ "': " ++ e)
          | .ok v =>
            .ok (out ++ [{ id := out.length, name := name, text := text, vec := v,
                           itemType := currentType,
                           parentPath := String.intercalate " > " path,
                           hierarchyLevel := path.length }],
                 path ++ [name])
    match entity with
    | .error e => .error e
    | .ok (out1, path1) =>
      match collectKeys embed fields hierarchyKeys out1 path1 with
      | .error e => .error e
      | .ok (out2, path2) =>
        .ok (out2, if (jget fields "name").isSome then path2.dropLast else path2)
  | .arr elems => collectList embed elems out path currentType
  | _ => .ok (out, path)
termination_by (sizeOf value, 0)
decreasing_by
  · simp
    omega
  · simp
    omega

/-- The `for (key, item_type) in hierarchy_keys` loop of `collect_items`. -/
def collectKeys (embed : Embed) (fields : List (String × Json))
    (keys : List (String × ItemType)) (out : List Item) (path : List String) :
    Except String (List Item × List String) :=
  match keys with
  | [] => .ok (out, path)
  | (k, ty) :: rest =>
    match h : jget fields k with
    | some child =>
      match collectItems embed child out path ty with
      | .error e => .error e
      | .ok (out1, path1) => collectKeys embed fields rest out1 path1
    | none => collectKeys embed fields rest out path
termination_by (sizeOf fields, keys.length)
decreasing_by
  all_goals first
    | exact Prod.Lex.left _ _ (sizeOf_jget h)
    | exact Prod.Lex.right _ (by simp)

/-- The `Value::Array` arm of `collect_items`. -/
def collectList (embed : Embed) (elems : List Json) (out : List Item)
    (path : List String) (currentType : ItemType) :
    Except String (List Item × List String) :=
  match elems with
  | [] => .ok (out, path)
  | v :: rest =>
    match collectItems embed v out path currentType with
    | .error e => .error e
    | .ok (out1, path1) => collectList embed rest out1 path1 currentType
termination_by (sizeOf elems, 0)
decreasing_by
  all_goals exact Prod.Lex.left _ _ (by simp <;> omega)

end

mutual

theorem collectItems_mono (embed : Embed) (value : Json) (out : List Item)
    (path : List String) (t : ItemType) (out' : List Item) (path' : List String)
    (h : collectItems embed value out path t = .ok (out', path')) : out <+: out' :=
  match value, h with
  | .obj fields, h => by
    simp only [collectItems] at h
    split at h
    · exact absurd h (by simp)
    next out1 path1 hent =>
      split at h
      · exact absurd h (by simp)
      next out2 path2 hkeys =>
        simp only [Except.ok.injEq, Prod.mk.injEq] at h
        have h1 : out <+: out1 := by
          split at hent
          · simp only [Except.ok.injEq, Prod.mk.injEq] at hent
            exact hent.1 ▸ List.prefix_refl _
          · split at hent
            · exact absurd hent (by simp)
            · split at hent
              · exact absurd hent (by simp)
              · simp only [Except.ok.injEq, Prod.mk.injEq] at hent
                exact hent.1 ▸ List.prefix_append _ _
        have h2 : out1 <+: out2 :=
          collectKeys_mono embed fields hierarchyKeys out1 path1 out2 path2 hkeys
        exact h.1 ▸ h1.trans h2
  | .arr elems, h => by
    simp only [collectItems] at h
    exact collectList_mono embed elems out path t out' path' h
  | .null, h => by
    simp only [collectItems, Except.ok.injEq, Prod.mk.injEq] at h
    exact h.1 ▸ List.prefix_refl _
  | .bool b, h => by
    simp only [collectItems, Except.ok.injEq, Prod.mk.injEq] at h
    exact h.1 ▸ List.prefix_refl _
  | .num n, h => by
    simp only [collectItems, Except.ok.injEq, Prod.mk.injEq] at h
    exact h.1 ▸ List.prefix_refl _
  | .str s, h => by
    simp only [collectItems, Except.ok.injEq, Prod.mk.injEq] at h
    exact h.1 ▸ List.prefix_refl _
termination_by (sizeOf value, 0)
decreasing_by
  all_goals
    first
      | (refine Prod.Lex.right _ ?_; simp)
      | (refine Prod.Lex.left _ _ ?_;
          first
            | (apply sizeOf_jget; assumption)
            | (simp <;> omega)
            | omega)

theorem collectKeys_mono (embed : Embed) (fields : List (String × Json))
    (keys : List (String × ItemType)) (out : List Item) (path : List String)
    (out' : List Item) (path' : List String)
    (h : collectKeys embed fields keys out path = .ok (out', path')) : out <+: out' :=
  match keys, h with
  | [], h => by
    simp only [collectKeys, Except.ok.injEq, Prod.mk.injEq] at h
    exact h.1 ▸ List.prefix_refl _
  | (k, ty) :: rest, h => by
    rw [collectKeys] at h
    split at h
    next child hchild =>
      split at h
      · exact absurd h (by simp)
      next out1 path1 hitem =>
        have h1 := collectItems_mono embed child out path ty out1 path1 hitem
        have h2 := collectKeys_mono embed fields rest out1 path1 out' path' h
        exact h1.trans h2
    next hchild =>
      exact collectKeys_mono embed fields rest out path out' path' h
termination_by (sizeOf fields, keys.length)
decreasing_by
  all_goals
    first
      | (refine Prod.Lex.right _ ?_; simp)
      | (refine Prod.Lex.left _ _ ?_;
          first
            | (apply sizeOf_jget; assumption)
            | (simp <;> omega)
            | omega)

theorem collectList_mono (embed : Embed) (elems : List Json) (out : List Item)
    (path : List String) (t : ItemType) (out' : List Item) (path' : List String)
    (h : collectList embed elems out path t = .ok (out', path')) : out <+: out' :=
  match elems, h with
  | [], h => by
    simp only [collectList, Except.ok.injEq, Prod.mk.injEq] at h
    exact h.1 ▸ List.prefix_refl _
  | v :: rest, h => by
    rw [collectList] at h
    split at h
    · exact absurd h (by simp)
    next out1 path1 hitem =>
      have h1 := collectItems_mono embed v out path t out1 path1 hitem
      have h2 := collectList_mono embed rest out1 path1 t out' path' h
      exact h1.trans h2
termination_by (sizeOf elems, 0)
decreasing_by
  all_goals
    first
      | (refine Prod.Lex.right _ ?_; simp)
      | (refine Prod.Lex.left _ _ ?_;
          first
            | (apply sizeOf_jget; assumption)
            | (simp <;> omega)
            | omega)

end



/-- `NamesSat P j` : every string that appears as the value of a `"name"`
field of an object anywhere inside `j` satisfies `P`. -/
def NamesSat (P : String → Prop) (value : Json) : Prop :=
  match value with
  | .obj fields =>
    (∀ n, jget fields "name" = some (Json.str n) → P n) ∧
    (∀ kv ∈ fields, NamesSat P kv.2)
  | .arr elems => ∀ v ∈ elems, NamesSat P v
  | _ => True
termination_by sizeOf value
decreasing_by
  · calc sizeOf kv.2 < sizeOf kv := by obtain ⟨a, b⟩ := kv; simp <;> omega
      _ < sizeOf fields := List.sizeOf_lt_of_mem (by assumption)
      _ < sizeOf (Json.obj fields) := by simp <;> omega
  · calc sizeOf v < sizeOf elems := List.sizeOf_lt_of_mem (by assumption)
      _ < sizeOf (Json.arr elems) := by simp <;> omega

theorem jget_mem {fields : List (String × Json)} {k : String} {v : Json}
    (h : jget fields k = some v) : (k, v) ∈ fields := by
  induction fields with
  | nil => simp [jget] at h
  | cons kv rest ih =>
    obtain ⟨k', v'⟩ := kv
    by_cases hk : k' = k
    · simp [jget, hk] at h
      subst hk h
      exact List.mem_cons_self _ _
    · simp [jget, hk] at h
      exact List.mem_cons_of_mem _ (ih h)

theorem NamesSat.of_jget {P : String → Prop} {fields : List (String × Json)}
    {k : String} {v : Json} (hns : NamesSat P (.obj fields))
    (h : jget fields k = some v) : NamesSat P v := by
  rw [NamesSat] at hns
  exact hns.2 _ (jget_mem h)



theorem Json.asStr_str (s : String) : (Json.str s).asStr = some s := rfl

theorem Json.asStr_eq_some {v : Json} {s : String} (h : v.asStr = some s) :
    v = .str s := by
  cases v <;> simp [Json.asStr] at h
  exact h ▸ rfl

/-- `ItemSat P it` : the item's name satisfies `P` and its parent path is the
`" > "`-join of a list of `P`-strings whose length is the item's depth. -/
def ItemSat (P : String → Prop) (it : Item) : Prop :=
  P it.name ∧ ∃ p : List String, (∀ s ∈ p, P s) ∧
    it.parentPath = String.intercalate " > " p ∧ it.hierarchyLevel = p.length

mutual

theorem collectItems_inv (embed : Embed) (value : Json) (out : List Item)
    (path : List String) (t : ItemType) (out' : List Item) (path' : List String)
    (h : collectItems embed value out path t = .ok (out', path')) :
    path' = path ∧
    (out.map Item.id = List.range out.length → out'.map Item.id = List.range out'.length) ∧
    ∀ P : String → Prop, NamesSat P value → (∀ s ∈ path, P s) →
      (∀ it ∈ out, ItemSat P it) → (∀ it ∈ out', ItemSat P it) :=
  match value, h with
  | .obj fields, h => by
    simp only [collectItems] at h
    split at h
    · exact absurd h (by simp)
    next out1 path1 hent =>
      split at h
      · exact absurd h (by simp)
      next out2 path2 hkeys =>
        simp only [Except.ok.injEq, Prod.mk.injEq] at h
        obtain ⟨hout, hpath⟩ := h
        subst hout
        subst hpath
        have ikeys := collectKeys_inv embed fields hierarchyKeys out1 path1 out2 path2 hkeys
        split at hent
        next hname =>
          -- no "name" field
          simp only [Except.ok.injEq, Prod.mk.injEq] at hent
          obtain ⟨e1, e2⟩ := hent
          subst e1; subst e2
          refine ⟨?_, ikeys.2.1, ?_⟩
          · simp [hname, ikeys.1]
          · intro P hns hp hold
            exact ikeys.2.2 P hns hp hold
        next nv hname =>
          split at hent
          · exact absurd hent (by simp)
          next name hstr =>
            split at hent
            · exact absurd hent (by simp)
            next v hemb =>
              simp only [Except.ok.injEq, Prod.mk.injEq] at hent
              obtain ⟨e1, e2⟩ := hent
              subst e1; subst e2
              have hpath2 : path2 = path ++ [name] := ikeys.1
              constructor
              · simp [hname, hpath2, List.dropLast_concat]
              constructor
              · intro hbase
                refine ikeys.2.1 ?_
                simp [hbase, List.range_succ]
              · intro P hns hp hold
                have hnv : nv = Json.str name := Json.asStr_eq_some hstr
                subst hnv
                have hPname : P name := by
                  rw [NamesSat] at hns
                  exact hns.1 name hname
                refine ikeys.2.2 P hns ?_ ?_
                · intro s hs
                  rcases List.mem_append.1 hs with hs | hs
                  · exact hp s hs
                  · simp at hs
                    exact hs ▸ hPname
                · intro it hit
                  rcases List.mem_append.1 hit with hit | hit
                  · exact hold it hit
                  · simp at hit
                    subst hit
                    exact ⟨hPname, path, hp, rfl, rfl⟩
  | .arr elems, h => by
    simp only [collectItems] at h
    have il := collectList_inv embed elems out path t out' path' h
    refine ⟨il.1, il.2.1, ?_⟩
    intro P hns hp hold
    refine il.2.2 P ?_ hp hold
    intro v hv
    rw [NamesSat] at hns
    exact hns v hv
  | .null, h => by
    simp only [collectItems, Except.ok.injEq, Prod.mk.injEq] at h
    obtain ⟨e1, e2⟩ := h
    subst e1; subst e2
    exact ⟨rfl, fun hb => hb, fun P _ _ hold => hold⟩
  | .bool b, h => by
    simp only [collectItems, Except.ok.injEq, Prod.mk.injEq] at h
    obtain ⟨e1, e2⟩ := h
    subst e1; subst e2
    exact ⟨rfl, fun hb => hb, fun P _ _ hold => hold⟩
  | .num n, h => by
    simp only [collectItems, Except.ok.injEq, Prod.mk.injEq] at h
    obtain ⟨e1, e2⟩ := h
    subst e1; subst e2
    exact ⟨rfl, fun hb => hb, fun P _ _ hold => hold⟩
  | .str s, h => by
    simp only [collectItems, Except.ok.injEq, Prod.mk.injEq] at h
    obtain ⟨e1, e2⟩ := h
    subst e1; subst e2
    exact ⟨rfl, fun hb => hb, fun P _ _ hold => hold⟩
termination_by (sizeOf value, 0)
decreasing_by
  all_goals
    first
      | (refine Prod.Lex.right _ ?_; simp)
      | (refine Prod.Lex.left _ _ ?_;
          first
            | (apply sizeOf_jget; assumption)
            | (simp <;> omega)
            | omega)

theorem collectKeys_inv (embed : Embed) (fields : List (String × Json))
    (keys : List (String × ItemType)) (out : List Item) (path : List String)
    (out' : List Item) (path' : List String)
    (h : collectKeys embed fields keys out path = .ok (out', path')) :
    path' = path ∧
    (out.map Item.id = List.range out.length → out'.map Item.id = List.range out'.length) ∧
    ∀ P : String → Prop, NamesSat P (.obj fields) → (∀ s ∈ path, P s) →
      (∀ it ∈ out, ItemSat P it) → (∀ it ∈ out', ItemSat P it) :=
  match keys, h with
  | [], h => by
    simp only [collectKeys, Except.ok.injEq, Prod.mk.injEq] at h
    obtain ⟨e1, e2⟩ := h
    subst e1; subst e2
    exact ⟨rfl, fun hb => hb, fun P _ _ hold => hold⟩
  | (k, ty) :: rest, h => by
    rw [collectKeys] at h
    split at h
    next child hchild =>
      split at h
      · exact absurd h (by simp)
      next out1 path1 hitem =>
        have i1 := collectItems_inv embed child out path ty out1 path1 hitem
        have i2 := collectKeys_inv embed fields rest out1 path1 out' path' h
        have hp1 : path1 = path := i1.1
        subst hp1
        refine ⟨i2.1, fun hb => i2.2.1 (i1.2.1 hb), ?_⟩
        intro P hns hp hold
        exact i2.2.2 P hns hp (i1.2.2 P (NamesSat.of_jget hns hchild) hp hold)
    next hchild =>
      exact collectKeys_inv embed fields rest out path out' path' h
termination_by (sizeOf fields, keys.length)
decreasing_by
  all_goals
    first
      | (refine Prod.Lex.right _ ?_; simp)
      | (refine Prod.Lex.left _ _ ?_;
          first
            | (apply sizeOf_jget; assumption)
            | (simp <;> omega)
            | omega)

theorem collectList_inv (embed : Embed) (elems : List Json) (out : List Item)
    (path : List String) (t : ItemType) (out' : List Item) (path' : List String)
    (h : collectList embed elems out path t = .ok (out', path')) :
    path' = path ∧
    (out.map Item.id = List.range out.length → out'.map Item.id = List.range out'.length) ∧
    ∀ P : String → Prop, (∀ v ∈ elems, NamesSat P v) → (∀ s ∈ path, P s) →
      (∀ it ∈ out, ItemSat P it) → (∀ it ∈ out', ItemSat P it) :=
  match elems, h with
  | [], h => by
    simp only [collectList, Except.ok.injEq, Prod.mk.injEq] at h
    obtain ⟨e1, e2⟩ := h
    subst e1; subst e2
    exact ⟨rfl, fun hb => hb, fun P _ _ hold => hold⟩
  | v :: rest, h => by
    rw [collectList] at h
    split at h
    · exact absurd h (by simp)
    next out1 path1 hitem =>
      have i1 := collectItems_inv embed v out path t out1 path1 hitem
      have i2 := collectList_inv embed rest out1 path1 t out' path' h
      have hp1 : path1 = path := i1.1
      subst hp1
      refine ⟨i2.1, fun hb => i2.2.1 (i1.2.1 hb), ?_⟩
      intro P hns hp hold
      refine i2.2.2 P (fun w hw => hns w (List.mem_cons_of_mem _ hw)) hp
        (i1.2.2 P (hns v (List.mem_cons_self _ _)) hp hold)
termination_by (sizeOf elems, 0)
decreasing_by
  all_goals
    first
      | (refine Prod.Lex.right _ ?_; simp)
      | (refine Prod.Lex.left _ _ ?_;
          first
            | (apply sizeOf_jget; assumption)
            | (simp <;> omega)
            | omega)

end


/-! ## The engine state and the load pipeline (`lib.rs`) -/

/-- The engine state relevant to loading and querying: the corpus and the
index (`LoreEngine.items`, `LoreEngine.index`).  The HNSW index is modelled
by the ordered list of `(vector, id)` insertions it received. -/
structure Engine where
  items : List Item
  index : Option (List (List ℚ × Nat))
deriving DecidableEq

/-- Mirrors `LoreEngine::load_from_json_value`.  Returns the engine state
after the call together with the `Result<(), String>` outcome. -/
def loadFromJsonValue (embed : Embed) (eng : Engine) (json : Json) :
    Engine × Except String Unit :=
  match collectItems embed json [] [] .unknown with
  | .error e => (eng, .error e)
  | .ok (items, _) =>
    if items.isEmpty then
      (eng, .error "No items found in JSON. Ensure objects have a 'name' field.")
    else
      let hnsw := items.map (fun it => (it.vec, it.id))
      ({ items := items, index := some hnsw }, .ok ())

/-- Mirrors `LoreEngine::load_from_json_str`; the `serde_json` parser is
external library code and is taken as an oracle parameter. -/
def loadFromJsonStr (parse : String → Except String Json) (embed : Embed)
    (eng : Engine) (jsonStr : String) : Engine × Except String Unit :=
  match parse jsonStr with
  | .error e => (eng, .error ("Invalid JSON: " ++ e))
  | .ok j => loadFromJsonValue embed eng j

/-! ## The intent classifier (`types.rs`) -/

/-- Unicode simple lowercasing on the Basic Latin and Latin-1 ranges — the
only ranges the classifier keyword lexicon draws from — mirroring the
effect of Rust `str::to_lowercase` on those characters. -/
def rustCharToLower (c : Char) : Char :=
  if 'A' ≤ c ∧ c ≤ 'Z' then Char.ofNat (c.toNat + 32)
  else if 'À' ≤ c ∧ c ≤ 'Þ' ∧ c ≠ '×' then Char.ofNat (c.toNat + 32)
  else c

/-- Mirrors `query.to_lowercase()`. -/
def rustToLower (s : String) : String := ⟨s.data.map rustCharToLower⟩

/-- Substring occurrence test on character lists. -/
def containsSubCL (needle : List Char) (hay : List Char) : Bool :=
  needle.isPrefixOf hay ||
    match hay with
    | [] => false
    | _ :: rest => containsSubCL needle rest

/-- Mirrors Rust `str::contains` with a string pattern: `strContains s pat`
is `s.contains(pat)`. -/
def strContains (s pat : String) : Bool := containsSubCL pat.data s.data

/-- Mirrors `types.rs` `detect_item_type_from_query`. -/
def detect_item_type_from_query (query : String) : Option ItemType :=
  let ql := rustToLower query
  if strContains ql "personnage" || strContains ql "character"
      || strContains ql "héros" || strContains ql "roi"
      || strContains ql "reine" || strContains ql "empereur"
      || strContains ql "sultan" || strContains ql "archimage" then
    some .character
  else if strContains ql "lieu" || strContains ql "location"
      || strContains ql "endroit" || strContains ql "cité"
      || strContains ql "ville" || strContains ql "village"
      || strContains ql "forteresse" then
    some .location
  else if strContains ql "région" || strContains ql "region"
      || strContains ql "royaume" || strContains ql "empire"
      || strContains ql "territoire" then
    some .region
  else if strContains ql "événement" || strContains ql "event"
      || strContains ql "quand" || strContains ql "guerre"
      || strContains ql "bataille" || strContains ql "conflit"
      || strContains ql "histoire" then
    some .event
  else if strContains ql "faction" || strContains ql "guilde"
      || strContains ql "organisation" || strContains ql "ordre" then
    some .faction
  else if strContains ql "monde" || strContains ql "world"
      || strContains ql "univers" then
    some .world
  else
    none

/-- The classifier priority table exactly as §4.4 of the spec lists it. -/
def keywordGroups : List (ItemType × List String) :=
  [(.character, ["personnage", "character", "héros", "roi", "reine", "empereur", "sultan", "archimage"]),
   (.location, ["lieu", "location", "endroit", "cité", "ville", "village", "forteresse"]),
   (.region, ["région", "region", "royaume", "empire", "territoire"]),
   (.event, ["événement", "event", "quand", "guerre", "bataille", "conflit", "histoire"]),
   (.faction, ["faction", "guilde", "organisation", "ordre"]),
   (.world, ["monde", "world", "univers"])]

/-- The intent classifier as the spec words it: lowercase the query, then
the first keyword group in priority order with any keyword occurring as a
substring wins; `none` if no keyword of any group occurs. -/
def classifySpec (query : String) : Option ItemType :=
  let ql := rustToLower query
  (keywordGroups.find? (fun g => g.2.any (fun kw => strContains ql kw))).map (fun g => g.1)

/-! ## Retrieval (`retrieval.rs`) -/

/-- One ANN search hit, mirroring `hnsw_rs::Neighbour` as used by
`retrieve_context` (`d_id` and `distance`). -/
structure Neighbor where
  d_id : Nat
  distance : ℚ
deriving DecidableEq

/-- Mirrors `retrieval.rs` `retrieve_context`.  `search` is the
`hnsw.search` oracle (library code), already closed over the index;
`fmt3` is the `{:.3}` float formatting of the similarity. -/
def retrieve_context (embed : Embed)
    (search : List ℚ → Nat → Nat → List Neighbor)
    (fmt3 : ℚ → String)
    (query : String) (items : List Item) (top_k : Nat) : Except String String :=
  match embed query with
  | .error e => .error ("Error embedding query: " ++ e)
  | .ok qv =>
    let filter_type := detect_item_type_from_query query
    let search_k := if filter_type.isSome then top_k * 3 else top_k
    let res := search qv search_k 64
    let header :=
      match filter_type with
      | some it => "Filter: " ++ it.as_str ++ " only\n\n"
      | none => ""
    if res.isEmpty then
      .ok (header ++ "No relevant items found.\n")
    else
      let filtered_results :=
        ((res.filterMap (fun nb => (items.get? nb.d_id).map (fun it => (it, nb)))).filter
          (fun p : Item × Neighbor =>
            match filter_type with
            | some f => p.1.itemType == f
            | none => true)).take top_k
      if filtered_results.isEmpty then
        .ok (header ++ "No items of the requested type found.\n")
      else
        .ok (header ++ String.join (filtered_results.enum.map
          (fun p : Nat × (Item × Neighbor) =>
            toString (p.1 + 1) ++ ". " ++ p.2.1.display ++ " (similarity: "
              ++ fmt3 (1 - p.2.2.distance) ++ ")\n")))

/-- The retrieval pipeline as the spec steps it (§4.5 steps 1–10): embed,
classify, over-fetch `3·top_k` under a filter, map ids to items dropping
unresolvable ids, post-filter by kind, truncate to `top_k`, format with the
filter header and `1 − distance` similarities. -/
def retrieveSpec (embed : Embed)
    (search : List ℚ → Nat → Nat → List Neighbor)
    (fmt3 : ℚ → String)
    (query : String) (items : List Item) (top_k : Nat) : Except String String :=
  match embed query with
  | .error e => .error ("Error embedding query: " ++ e)
  | .ok qv =>
    let filter := classifySpec query
    let search_k := match filter with | some _ => 3 * top_k | none => top_k
    let hits := search qv search_k 64
    let header :=
      match filter with
      | some it => "Filter: " ++ it.as_str ++ " only\n\n"
      | none => ""
    let step6 := hits.filterMap (fun nb => (items.get? nb.d_id).map (fun it => (it, nb)))
    let step7 :=
      match filter with
      | some f => step6.filter (fun p : Item × Neighbor => p.1.itemType == f)
      | none => step6
    let step8 := step7.take top_k
    if hits.isEmpty then .ok (header ++ "No relevant items found.\n")
    else if step8.isEmpty then .ok (header ++ "No items of the requested type found.\n")
    else
      .ok (header ++ String.join (step8.enum.map
        (fun p : Nat × (Item × Neighbor) =>
          toString (p.1 + 1) ++ ". " ++ p.2.1.display ++ " (similarity: "
            ++ fmt3 (1 - p.2.2.distance) ++ ")\n")))

/-! ## Spec-side counting of `" > "` occurrences (for the depth invariant) -/

/-- Number of positions at which `pat` occurs in `l`. -/
def countOcc (pat : List Char) : List Char → Nat
  | [] => 0
  | c :: rest => (if pat.isPrefixOf (c :: rest) then 1 else 0) + countOcc pat rest

/-- `count_of_occurrences_of(pat, s)` of the spec. -/
def countOccS (pat s : String) : Nat := countOcc pat.data s.data

/-- A well-behaved entity name: non-empty and free of the separator
character. -/
def GoodName (s : String) : Prop := s ≠ "" ∧ '>' ∉ s.data

/-- The depth/parent-path relation claimed by the spec for one item. -/
def DepthFormula (it : Item) : Prop :=
  it.hierarchyLevel =
    countOccS " > " it.parentPath + (if it.parentPath = "" then 0 else 1)

/-! ## Concrete fixtures used by witnesses and counterexamples -/

/-- A trivially succeeding embedding oracle. -/
def embed0 : Embed := fun _ => .ok []

/-- An embedding oracle with a distinguishable one-entry vector. -/
def embed1 : Embed := fun _ => .ok [1]

/-- A pre-loaded engine state. -/
def eng0 : Engine :=
  { items := [{ id := 0, name := "A", text := "A", vec := [], itemType := .world,
                parentPath := "", hierarchyLevel := 0 }],
    index := some [([], 0)] }

/-- The item `collect_items` emits for an object with string name `name`,
aggregate description text `desc` and vector `v`, pushed at state
`(out, path, t)` — a named abbreviation of the record pushed in
`collectItems`. -/
def mkItem (out : List Item) (path : List String) (t : ItemType)
    (name desc : String) (v : List ℚ) : Item :=
  { id := out.length, name := name,
    text := if desc = "" then name else name ++ ": " ++ desc,
    vec := v, itemType := t,
    parentPath := String.intercalate " > " path,
    hierarchyLevel := path.length }

/-- The single item extracted from `{"name": "X"}` at the root. -/
def itemX : Item :=
  { id := 0, name := "X", text := "X", vec := [], itemType := .unknown,
    parentPath := "", hierarchyLevel := 0 }

/-- The engine state after loading `{"name": "X"}` with `embed0`. -/
def engX : Engine := { items := [itemX], index := some [([], 0)] }



theorem find?_any_map (ql : String) (l : List (ItemType × List String)) :
    ((l.find? (fun g => g.2.any (fun kw => strContains ql kw))).map (fun g => g.1)) =
      (((l.map (fun g => (g.1, g.2.any (fun kw => strContains ql kw)))).find?
          (fun g => g.2)).map (fun g => g.1)) := by
  induction l with
  | nil => rfl
  | cons a rest ih =>
    by_cases h : a.2.any (fun kw => strContains ql kw) = true
    · simp [List.find?, h]
    · simp only [Bool.not_eq_true] at h
      simp [List.find?, h, ih]

theorem chain6 (b1 b2 b3 b4 b5 b6 : Bool) :
    (if b1 then some ItemType.character
     else if b2 then some ItemType.location
     else if b3 then some ItemType.region
     else if b4 then some ItemType.event
     else if b5 then some ItemType.faction
     else if b6 then some ItemType.world
     else none) =
      (([(ItemType.character, b1), (ItemType.location, b2), (ItemType.region, b3),
         (ItemType.event, b4), (ItemType.faction, b5), (ItemType.world, b6)].find?
           (fun g => g.2)).map (fun g => g.1)) := by
  cases b1 <;> cases b2 <;> cases b3 <;> cases b4 <;> cases b5 <;> cases b6 <;> rfl

theorem detect_eq_classifySpec (q : String) :
    detect_item_type_from_query q = classifySpec q := by
  simp only [detect_item_type_from_query, classifySpec]
  rw [find?_any_map]
  simp only [keywordGroups, List.map_cons, List.map_nil, List.any, Bool.or_false,
    Bool.or_assoc]
  exact chain6 _ _ _ _ _ _

/-- C5: for every query the classifier lowercases the query and tests the six
keyword groups in the fixed priority order Character, Location, Region, Event,
Faction, World, returning the kind of the first group with any keyword
occurring as a substring and `none` when no keyword occurs (stated as equality
with the spec's priority-table classifier `classifySpec`); in particular the
spec's example query containing both "région" and "monde" classifies as
Region. -/
theorem c5_classifier_priority :
    (∀ q : String, detect_item_type_from_query q = classifySpec q) ∧
    detect_item_type_from_query "Décris-moi les régions du monde." = some ItemType.region :=
  ⟨detect_eq_classifySpec, by decide⟩

/-- C7: for every loaded corpus and query, retrieval runs the ANN search with
`k = 3·top_k` when the classifier returns a kind and `k = top_k` otherwise,
drops hits whose id is not in the corpus, filters the remaining items to the
classified kind, truncates to `top_k`, prepends the filter header line, and
formats one line per result with 1-based ranks and similarity `1 − distance`;
the two empty cases produce "No relevant items found." and "No items of the
requested type found." respectively (stated as equality of the source
translation with the spec's step-by-step pipeline). -/
theorem c7_retrieval_pipeline (embed : Embed)
    (search : List ℚ → Nat → Nat → List Neighbor) (fmt3 : ℚ → String)
    (query : String) (items : List Item) (top_k : Nat) :
    retrieve_context embed search fmt3 query items top_k =
      retrieveSpec embed search fmt3 query items top_k := by
  simp only [retrieve_context, retrieveSpec, detect_eq_classifySpec]
  cases hemb : embed query with
  | error e => rfl
  | ok qv =>
    cases hcl : classifySpec query with
    | none => simp [List.filter_true]
    | some f =>
      simp only [Nat.mul_comm 3 top_k]
      simp


theorem load_value_atomic (embed : Embed) (eng : Engine) (j : Json) (msg : String)
    (h : (loadFromJsonValue embed eng j).2 = .error msg) :
    (loadFromJsonValue embed eng j).1 = eng := by
  cases hc : collectItems embed j [] [] .unknown with
  | error e => simp [loadFromJsonValue, hc]
  | ok r =>
    obtain ⟨items, p⟩ := r
    by_cases hi : items.isEmpty
    · simp [loadFromJsonValue, hc, hi]
    · simp [loadFromJsonValue, hc, hi] at h

/-- C2: a load that fails — at the JSON-parsing stage, inside item
extraction (non-string name, embedding error), or because zero entities were
extracted — leaves the engine's items and index exactly as they were:
loading is all-or-nothing. -/
theorem c2_load_all_or_nothing (embed : Embed) (eng : Engine) :
    (∀ (j : Json) (msg : String),
        (loadFromJsonValue embed eng j).2 = .error msg →
        (loadFromJsonValue embed eng j).1 = eng) ∧
    (∀ (parse : String → Except String Json) (s : String) (msg : String),
        (loadFromJsonStr parse embed eng s).2 = .error msg →
        (loadFromJsonStr parse embed eng s).1 = eng) := by
  refine ⟨fun j msg h => load_value_atomic embed eng j msg h, ?_⟩
  intro parse s msg h
  cases hp : parse s with
  | error e => simp [loadFromJsonStr, hp]
  | ok j =>
    simp only [loadFromJsonStr, hp] at h ⊢
    exact load_value_atomic embed eng j msg h

/-- Witness for C2 at a concrete failing load: an empty JSON object (zero
entities) and a failing string parse both leave the pre-loaded engine
unchanged. -/
theorem c2_load_all_or_nothing_witness :
    (loadFromJsonValue embed0 eng0 (Json.obj [])).1 = eng0 ∧
    (loadFromJsonStr (fun s => .error s) embed0 eng0 "not json").1 = eng0 := by
  constructor
  · exact (c2_load_all_or_nothing embed0 eng0).1 (Json.obj [])
      "No items found in JSON. Ensure objects have a 'name' field."
      (by simp [loadFromJsonValue, collectItems, collectKeys, hierarchyKeys, jget])
  · exact (c2_load_all_or_nothing embed0 eng0).2 (fun s => .error s) "not json"
      "Invalid JSON: not json" (by simp [loadFromJsonStr])

/-- C3: after every successful load the item ids are exactly
`0, 1, …, |items|−1` in emission order — the depth-first traversal order of
`collectItems` over the recognized container keys (in the fixed order
worlds, regions, locations, characters, events, factions) and array
elements in array order. -/
theorem c3_ids_dense (embed : Embed) (eng eng' : Engine) (j : Json)
    (h : loadFromJsonValue embed eng j = (eng', .ok ())) :
    eng'.items.map Item.id = List.range eng'.items.length := by
  cases hc : collectItems embed j [] [] .unknown with
  | error e => simp [loadFromJsonValue, hc] at h
  | ok r =>
    obtain ⟨items, p⟩ := r
    by_cases hi : items.isEmpty
    · simp [loadFromJsonValue, hc, hi] at h
    · have hinv := (collectItems_inv embed j [] [] .unknown items p hc).2.1 (by simp)
      simp [loadFromJsonValue, hc, hi, Prod.ext_iff] at h
      rw [← h]
      exact hinv

/-- Witness for C3 at a concrete successful load. -/
theorem c3_ids_dense_witness :
    loadFromJsonValue embed0 eng0 (Json.obj [("name", Json.str "X")])
      = (engX, .ok ()) ∧
    engX.items.map Item.id = List.range engX.items.length := by
  constructor
  · simp [loadFromJsonValue, collectItems, collectKeys, hierarchyKeys, jget,
      Json.asStr, embed0, engX, itemX, String.intercalate]
  · exact c3_ids_dense embed0 eng0 engX (Json.obj [("name", Json.str "X")])
      (by simp [loadFromJsonValue, collectItems, collectKeys, hierarchyKeys, jget,
        Json.asStr, embed0, engX, itemX, String.intercalate])

/-- C9: whenever `collect_items` returns `Ok`, the ancestor-name stack it
leaves behind equals the stack it was given — every pushed entity name is
popped — so sibling entities at the same JSON level see the same
parent path. -/
theorem c9_path_restored (embed : Embed) (value : Json) (out : List Item)
    (path : List String) (t : ItemType) (out' : List Item) (path' : List String)
    (h : collectItems embed value out path t = .ok (out', path')) : path' = path :=
  (collectItems_inv embed value out path t out' path' h).1

/-- Witness for C9: a concrete entity object explored from a non-empty
stack returns that stack unchanged. -/
theorem c9_path_restored_witness :
    collectItems embed0 (Json.obj [("name", Json.str "X")]) []
      ["P"] ItemType.world
      = .ok ([{ id := 0, name := "X", text := "X", vec := [], itemType := .world,
                parentPath := "P", hierarchyLevel := 1 }], ["P"]) ∧
    (["P"] : List String) = ["P"] := by
  constructor
  · simp [collectItems, collectKeys, hierarchyKeys, jget, Json.asStr, embed0,
      String.intercalate, String.intercalate.go]
  · exact c9_path_restored embed0 (Json.obj [("name", Json.str "X")]) [] ["P"]
      .world [{ id := 0, name := "X", text := "X", vec := [], itemType := .world,
                parentPath := "P", hierarchyLevel := 1 }] ["P"]
      (by simp [collectItems, collectKeys, hierarchyKeys, jget, Json.asStr, embed0,
        String.intercalate, String.intercalate.go])


theorem collectKeys_all_none (embed : Embed) (fields : List (String × Json))
    (out : List Item) (path : List String) :
    ∀ keys : List (String × ItemType), (∀ k ty, (k, ty) ∈ keys → jget fields k = none) →
      collectKeys embed fields keys out path = .ok (out, path) := by
  intro keys
  induction keys with
  | nil => intro _; rw [collectKeys]
  | cons kt rest ih =>
    intro hin
    obtain ⟨k, ty⟩ := kt
    have hk : jget fields k = none := hin k ty (List.mem_cons_self _ _)
    rw [collectKeys]
    split
    next child hchild => rw [hchild] at hk; cases hk
    next => exact ih (fun k' ty' h' => hin k' ty' (List.mem_cons_of_mem _ h'))

/-- C1 corrected: children under keys that are not one of the six recognized
container keys are NOT traversed.  An object carrying neither a `"name"`
field nor any recognized container key contributes nothing, whatever its
other fields hold. -/
theorem c1_unrecognized_keys_not_traversed (embed : Embed)
    (fields : List (String × Json)) (out : List Item) (path : List String)
    (t : ItemType)
    (hname : jget fields "name" = none)
    (hkeys : ∀ k ty, (k, ty) ∈ hierarchyKeys → jget fields k = none) :
    collectItems embed (.obj fields) out path t = .ok (out, path) := by
  simp only [collectItems, hname]
  rw [collectKeys_all_none embed fields out path hierarchyKeys hkeys]
  simp [hname]

/-- C1 counterexample: in `{"a": {"name": "X"}}` the entity under the
unrecognized key `"a"` is NOT emitted — `collect_items` returns no items and
the load fails with the empty-corpus error — refuting the claim that it is
emitted with the inherited kind. -/
theorem c1_counterexample :
    collectItems embed0 (Json.obj [("a", Json.obj [("name", Json.str "X")])])
      [] [] ItemType.unknown = .ok ([], []) ∧
    (loadFromJsonValue embed0 eng0 (Json.obj [("a", Json.obj [("name", Json.str "X")])])).2
      = .error "No items found in JSON. Ensure objects have a 'name' field." := by
  constructor <;>
    simp [loadFromJsonValue, collectItems, collectKeys, hierarchyKeys, jget]

/-- Witness for the amended C1 theorem at the counterexample's object. -/
theorem c1_unrecognized_keys_witness :
    collectItems embed0 (Json.obj [("a", Json.obj [("name", Json.str "X")])])
      ([] : List Item) ([] : List String) ItemType.unknown = .ok ([], []) :=
  c1_unrecognized_keys_not_traversed embed0 [("a", Json.obj [("name", Json.str "X")])]
    [] [] .unknown (by simp [jget])
    (by intro k ty hkt
        fin_cases hkt <;> simp [jget])

/-- C8 counterexample: `{"name": ""}` loads successfully and produces an
item whose name is the empty string, refuting the claim that loaded names
are always non-empty. -/
theorem c8_counterexample :
    (loadFromJsonValue embed0 eng0 (Json.obj [("name", Json.str "")])).2 = .ok () ∧
    (loadFromJsonValue embed0 eng0 (Json.obj [("name", Json.str "")])).1.items.map Item.name
      = [""] := by
  constructor <;>
    simp [loadFromJsonValue, collectItems, collectKeys, hierarchyKeys, jget, Json.asStr,
      embed0, String.intercalate]

/-- C8 corrected: after a successful load every item's name is the exact
string value of a `"name"` field of the input — no non-emptiness validation
is applied (the counterexample shows an empty name loading fine).  Stated
parametrically: any property satisfied by all `"name"`-field strings of the
input holds of every loaded item's name. -/
theorem c8_names_from_input (P : String → Prop) (embed : Embed)
    (eng eng' : Engine) (j : Json)
    (hload : loadFromJsonValue embed eng j = (eng', .ok ()))
    (hns : NamesSat P j) :
    ∀ it ∈ eng'.items, P it.name := by
  cases hc : collectItems embed j [] [] .unknown with
  | error e => simp [loadFromJsonValue, hc] at hload
  | ok r =>
    obtain ⟨items, p⟩ := r
    by_cases hi : items.isEmpty
    · simp [loadFromJsonValue, hc, hi] at hload
    · have hsat := (collectItems_inv embed j [] [] .unknown items p hc).2.2 P hns
        (by simp) (by simp)
      simp [loadFromJsonValue, hc, hi, Prod.ext_iff] at hload
      intro it hit
      rw [← hload] at hit
      exact (hsat it hit).1

/-- Witness for the amended C8 theorem on a concrete load. -/
theorem c8_names_from_input_witness :
    loadFromJsonValue embed0 eng0 (Json.obj [("name", Json.str "X")]) = (engX, .ok ()) ∧
    NamesSat (fun s => s = "X") (Json.obj [("name", Json.str "X")]) ∧
    ∀ it ∈ engX.items, it.name = "X" := by
  have h1 : loadFromJsonValue embed0 eng0 (Json.obj [("name", Json.str "X")])
      = (engX, .ok ()) := by
    simp [loadFromJsonValue, collectItems, collectKeys, hierarchyKeys, jget,
      Json.asStr, embed0, engX, itemX, String.intercalate]
  have h2 : NamesSat (fun s => s = "X") (Json.obj [("name", Json.str "X")]) := by
    rw [NamesSat]
    refine ⟨?_, ?_⟩
    · intro n hn
      simp [jget] at hn
      exact hn.symm
    · intro kv hkv
      simp at hkv
      rw [hkv]
      show NamesSat (fun s => s = "X") (Json.str "X")
      simp [NamesSat]
  exact ⟨h1, h2, c8_names_from_input (fun s => s = "X") embed0 eng0 engX
    (Json.obj [("name", Json.str "X")]) h1 h2⟩


/-- C6 counterexample: with `{"name": "X", "description": ""}` the
description field is present, yet the emitted text is `"X"`, not `"X: "` —
refuting the claim that a present description always yields
`"{name}: {description}"`. -/
theorem c6_counterexample :
    collectItems embed0
      (Json.obj [("name", Json.str "X"), ("description", Json.str "")])
      [] [] ItemType.unknown = .ok ([itemX], []) ∧
    itemX.text = "X" ∧ ("X" : String) ≠ "X: " := by
  refine ⟨?_, rfl, by decide⟩
  simp [collectItems, collectKeys, hierarchyKeys, jget, Json.asStr, embed0, itemX,
    String.intercalate]

/-- C6 corrected: the entity emitted for an object with string name `n` has
`text = n` when the description is absent, not a string, or the empty
string, and `text = "{n}: {d}"` when the description is a present non-empty
string `d`. -/
theorem c6_text_formation (embed : Embed) (fields : List (String × Json))
    (out : List Item) (path : List String) (t : ItemType) (out' : List Item)
    (path' : List String) (n : String)
    (hname : jget fields "name" = some (.str n))
    (hok : collectItems embed (.obj fields) out path t = .ok (out', path')) :
    ∃ (it : Item) (ts : List Item), out' = out ++ it :: ts ∧ it.name = n ∧
      ((jget fields "description" = none ∨
          (∃ v, jget fields "description" = some v ∧ v.asStr = none) ∨
          jget fields "description" = some (.str "")) →
        it.text = n) ∧
      (∀ d : String, d ≠ "" → jget fields "description" = some (.str d) →
        it.text = n ++ ": " ++ d) := by
  simp only [collectItems, hname, Json.asStr] at hok
  split at hok
  · exact absurd hok (by simp)
  next out1 path1 hent =>
    split at hok
    · exact absurd hok (by simp)
    next out2 path2 hkeys =>
      simp only [Except.ok.injEq, Prod.mk.injEq] at hok
      obtain ⟨ho, hp⟩ := hok
      subst ho
      split at hent
      · exact absurd hent (by simp)
      next v hemb =>
      simp only [Except.ok.injEq, Prod.mk.injEq] at hent
      obtain ⟨he1, he2⟩ := hent
      subst he1
      subst he2
      obtain ⟨ts, hts⟩ := collectKeys_mono embed fields hierarchyKeys _ _ _ _ hkeys
      refine ⟨mkItem out path t n (((jget fields "description").bind Json.asStr).getD "") v,
        ts, ?_, rfl, ?_, ?_⟩
      · rw [← hts, List.append_assoc, List.singleton_append]
        rfl
      · intro hdesc
        rcases hdesc with hd | ⟨w, hd, hw⟩ | hd
        · simp [mkItem, hd]
        · simp [mkItem, hd, hw]
        · simp [mkItem, hd, Json.asStr]
      · intro d hd hdesc
        simp [mkItem, hdesc, Json.asStr, hd]

/-- Witness for the amended C6 theorem at the counterexample's object. -/
theorem c6_text_formation_witness :
    ∃ (it : Item) (ts : List Item), ([itemX] : List Item) = [] ++ it :: ts ∧
      it.name = "X" ∧
      ((jget [("name", Json.str "X"), ("description", Json.str "")] "description" = none ∨
          (∃ v, jget [("name", Json.str "X"), ("description", Json.str "")] "description"
              = some v ∧ v.asStr = none) ∨
          jget [("name", Json.str "X"), ("description", Json.str "")] "description"
            = some (.str "")) →
        it.text = "X") ∧
      (∀ d : String, d ≠ "" →
        jget [("name", Json.str "X"), ("description", Json.str "")] "description"
          = some (.str d) →
        it.text = "X" ++ ": " ++ d) :=
  c6_text_formation embed0 [("name", Json.str "X"), ("description", Json.str "")]
    [] [] .unknown [itemX] [] "X" (by simp [jget])
    (by simp [collectItems, collectKeys, hierarchyKeys, jget, Json.asStr, embed0, itemX,
      String.intercalate])

/-- C10: a present but non-string `description` does not fail the load — the
description is silently treated as absent and the item's text equals its
name — while a non-string `name` aborts extraction with the parse error. -/
theorem c10_description_lenient (embed : Embed) (n : String) (v : Json)
    (vec : List ℚ) (out : List Item) (path : List String) (t : ItemType)
    (hv : v.asStr = none) (hemb : embed n = .ok vec) :
    collectItems embed (Json.obj [("name", Json.str n), ("description", v)]) out path t
      = .ok (out ++ [{ id := out.length, name := n, text := n, vec := vec,
                       itemType := t, parentPath := String.intercalate " > " path,
                       hierarchyLevel := path.length }], path) ∧
    (∀ fields : List (String × Json), jget fields "name" = some v →
      collectItems embed (Json.obj fields) out path t
        = .error "The 'name' field must be a string") := by
  constructor
  · rw [collectItems]
    simp [jget, Json.asStr_str, hv, hemb, collectKeys, hierarchyKeys,
      List.dropLast_concat]
  · intro fields hf
    rw [collectItems]
    simp [hf, hv]

/-- Witness for C10: a numeric description is tolerated (text falls back to
the name); a numeric name aborts with the parse error. -/
theorem c10_description_lenient_witness :
    (Json.num 5).asStr = none ∧ embed0 "X" = .ok [] ∧
    collectItems embed0 (Json.obj [("name", Json.str "X"), ("description", Json.num 5)])
      [] [] ItemType.unknown = .ok ([itemX], []) ∧
    collectItems embed0 (Json.obj [("name", Json.num 5)]) [] [] ItemType.unknown
      = .error "The 'name' field must be a string" := by
  refine ⟨rfl, rfl, ?_, ?_⟩
  · have h := (c10_description_lenient embed0 "X" (Json.num 5) [] [] []
      ItemType.unknown rfl rfl).1
    simpa [itemX, String.intercalate] using h
  · exact (c10_description_lenient embed0 "X" (Json.num 5) [] [] []
      ItemType.unknown rfl rfl).2 [("name", Json.num 5)] (by simp [jget])


theorem sep_data : (" > " : String).data = [' ', '>', ' '] := rfl

theorem countOcc_sep_of_no_gt {l : List Char} (h : '>' ∉ l) :
    countOcc [' ', '>', ' '] l = 0 := by
  induction l with
  | nil => rfl
  | cons c rest ih =>
    simp only [List.mem_cons, not_or] at h
    obtain ⟨hc, hrest⟩ := h
    rw [countOcc, ih hrest]
    have hpre : ([' ', '>', ' '].isPrefixOf (c :: rest)) = false := by
      cases rest with
      | nil => simp [List.isPrefixOf]
      | cons d rest' =>
        have hd : ¬ ('>' = d) := by
          intro hdd
          exact hrest (hdd ▸ List.mem_cons_self _ _)
        simp [List.isPrefixOf, hd]
    simp [hpre]

theorem countOcc_sep_append {n m : List Char} (hn : '>' ∉ n) (hm : m ≠ [])
    (hmh : ∀ c, m.head? = some c → ¬ (c = '>')) :
    countOcc [' ', '>', ' '] (n ++ [' ', '>', ' '] ++ m)
      = 1 + countOcc [' ', '>', ' '] m := by
  induction n with
  | nil =>
    obtain ⟨c, m', rfl⟩ : ∃ c m', m = c :: m' := by
      cases m with
      | nil => exact absurd rfl hm
      | cons c m' => exact ⟨c, m', rfl⟩
    have hc : ¬ (c = '>') := hmh c rfl
    simp only [List.nil_append, List.cons_append]
    rw [countOcc, countOcc, countOcc]
    have h1 : ([' ', '>', ' '].isPrefixOf (' ' :: '>' :: ' ' :: c :: m')) = true := by
      simp [List.isPrefixOf]
    have h2 : ([' ', '>', ' '].isPrefixOf ('>' :: ' ' :: c :: m')) = false := by
      simp [List.isPrefixOf]
    have h3 : ([' ', '>', ' '].isPrefixOf (' ' :: c :: m')) = false := by
      simp only [List.isPrefixOf, Bool.and_eq_false_iff]
      simp
      exact Or.inl (fun h => absurd h.symm hc)
    rw [h1, h2, h3]
    simp [Nat.add_assoc]
  | cons a n' ih =>
    simp only [List.mem_cons, not_or] at hn
    obtain ⟨ha, hn'⟩ := hn
    simp only [List.cons_append]
    rw [countOcc]
    have hpre : ([' ', '>', ' '].isPrefixOf (a :: (n' ++ [' ', '>', ' '] ++ m))) = false := by
      cases hn'' : n' with
      | nil =>
        simp [List.isPrefixOf]
      | cons b n'' =>
        have hb : ¬ ('>' = b) := by
          intro hbb
          exact hn' (hn'' ▸ hbb ▸ List.mem_cons_self _ _)
        simp [List.isPrefixOf, hb]
    rw [hpre]
    have := ih hn'
    simp only [List.cons_append] at this ⊢
    rw [this]
    simp

theorem intercalate_go_data (s acc : String) (l : List String) :
    (String.intercalate.go acc s l).data
      = acc.data ++ (l.map (fun x => s.data ++ x.data)).flatten := by
  induction l generalizing acc with
  | nil => simp [String.intercalate.go]
  | cons a as ih =>
    rw [String.intercalate.go, ih]
    simp [String.data_append, List.append_assoc]

theorem intercalate_data_cons (s : String) (a : String) (as : List String) :
    (String.intercalate s (a :: as)).data
      = a.data ++ (as.map (fun x => s.data ++ x.data)).flatten := by
  rw [String.intercalate, intercalate_go_data]

theorem countOcc_join {p : List String} (hp : ∀ x ∈ p, GoodName x) (hne : p ≠ []) :
    countOccS " > " (String.intercalate " > " p) = p.length - 1 := by
  obtain ⟨a, as, rfl⟩ : ∃ a as, p = a :: as := by
    cases p with
    | nil => exact absurd rfl hne
    | cons a as => exact ⟨a, as, rfl⟩
  rw [countOccS, sep_data, intercalate_data_cons]
  clear hne
  induction as generalizing a with
  | nil =>
    simp only [List.map_nil, List.flatten_nil, List.append_nil, List.length_cons]
    have := (hp a (List.mem_cons_self _ _)).2
    rw [countOcc_sep_of_no_gt this]
    simp
  | cons b as' ih =>
    have hb := hp b (List.mem_cons_of_mem _ (List.mem_cons_self _ _))
    obtain ⟨c, bd, hcb⟩ : ∃ c bd, b.data = c :: bd := by
      cases hbd : b.data with
      | nil =>
        exact absurd (String.ext hbd) hb.1
      | cons c bd => exact ⟨c, bd, rfl⟩
    have hcgt : ¬ (c = '>') := by
      intro hc
      exact hb.2 (by rw [hcb, hc]; exact List.mem_cons_self _ _)
    simp only [List.map_cons, List.flatten_cons]
    have hgoal :
        a.data ++ (([' ', '>', ' '] ++ b.data)
            ++ ((as'.map (fun x => [' ', '>', ' '] ++ x.data)).flatten))
          = a.data ++ [' ', '>', ' '] ++ (b.data ++ ((as'.map (fun x => [' ', '>', ' '] ++ x.data)).flatten)) := by
      simp [List.append_assoc]
    rw [hgoal, countOcc_sep_append (hp a (List.mem_cons_self _ _)).2
      (by rw [hcb]; simp)
      (by rw [hcb]
          intro e he
          simp only [List.cons_append, List.head?_cons, Option.some.injEq] at he
          exact he ▸ hcgt)]
    rw [ih b (fun x hx => hp x (List.mem_cons_of_mem _ hx))]
    simp
    omega

theorem collectKeys_nil (embed : Embed) (fields : List (String × Json))
    (out : List Item) (path : List String) :
    collectKeys embed fields [] out path = .ok (out, path) := by
  rw [collectKeys]

theorem collectKeys_cons_some (embed : Embed) (fields : List (String × Json))
    (k : String) (ty : ItemType) (rest : List (String × ItemType))
    (out : List Item) (path : List String) (child : Json)
    (h : jget fields k = some child) :
    collectKeys embed fields ((k, ty) :: rest) out path =
      match collectItems embed child out path ty with
      | .error e => .error e
      | .ok (out1, path1) => collectKeys embed fields rest out1 path1 := by
  rw [collectKeys]
  split
  next child2 hc => rw [hc] at h; cases h; rfl
  next hc => rw [hc] at h; cases h

theorem collectKeys_cons_none (embed : Embed) (fields : List (String × Json))
    (k : String) (ty : ItemType) (rest : List (String × ItemType))
    (out : List Item) (path : List String)
    (h : jget fields k = none) :
    collectKeys embed fields ((k, ty) :: rest) out path =
      collectKeys embed fields rest out path := by
  rw [collectKeys]
  split
  next child2 hc => rw [hc] at h; cases h
  next hc => rfl

theorem except_match_id (x : Except String (List Item × List String)) :
    (match x with
     | Except.error e => Except.error e
     | Except.ok (a, b) => Except.ok (a, b)) = x := by
  cases x with
  | error e => rfl
  | ok r =>
    obtain ⟨a, b⟩ := r
    rfl

/-- One-step evaluation of `collect_items` on an object of the shape
`{"name": n, "worlds": child}` with no description: push the entity, recurse
into the child with kind World, pop the name. -/
theorem collectItems_obj_child (embed : Embed) (n : String) (child : Json)
    (out : List Item) (path : List String) (t : ItemType) (v : List ℚ)
    (hemb : embed n = .ok v) :
    collectItems embed (Json.obj [("name", Json.str n), ("worlds", child)]) out path t
      = match collectItems embed child
            (out ++ [{ id := out.length, name := n, text := n, vec := v, itemType := t,
                       parentPath := String.intercalate " > " path,
                       hierarchyLevel := path.length }]) (path ++ [n]) ItemType.world with
        | .error e => .error e
        | .ok (out2, path2) => .ok (out2, path2.dropLast) := by
  rw [collectItems.eq_1]
  simp [jget, hierarchyKeys, Json.asStr, hemb, collectKeys_nil, collectKeys_cons_some,
    collectKeys_cons_none, except_match_id]

/-- The root item extracted from `jBad`: its name is the empty string. -/
def item0bad : Item :=
  { id := 0, name := "", text := "", vec := [], itemType := .unknown,
    parentPath := "", hierarchyLevel := 0 }

/-- The item for `"B"` extracted from `jBad`: depth 1 but empty parent
path, because its single ancestor name is the empty string. -/
def itemBbad : Item :=
  { id := 1, name := "B", text := "B", vec := [], itemType := .world,
    parentPath := "", hierarchyLevel := 1 }

/-- A corpus whose first entity has the empty string as name. -/
def jBad : Json :=
  Json.obj [("name", Json.str ""), ("worlds", Json.obj [("name", Json.str "B")])]

/-- The engine state after loading `jBad` with `embed0`. -/
def engBad : Engine :=
  { items := [item0bad, itemBbad], index := some [([], 0), ([], 1)] }

/-- The items extracted from `jGood`. -/
def itemAg : Item :=
  { id := 0, name := "A", text := "A", vec := [], itemType := .unknown,
    parentPath := "", hierarchyLevel := 0 }

def itemBg : Item :=
  { id := 1, name := "B", text := "B", vec := [], itemType := .world,
    parentPath := "A", hierarchyLevel := 1 }

/-- A corpus with well-behaved (non-empty, `'>'`-free) entity names. -/
def jGood : Json :=
  Json.obj [("name", Json.str "A"), ("worlds", Json.obj [("name", Json.str "B")])]

/-- The engine state after loading `jGood` with `embed0`. -/
def engG : Engine :=
  { items := [itemAg, itemBg], index := some [([], 0), ([], 1)] }

theorem jBad_inner_eval :
    collectItems embed0 (Json.obj [("name", Json.str "B")]) [item0bad] [""] ItemType.world
      = .ok ([item0bad, itemBbad], [""]) := by
  simp [collectItems, hierarchyKeys, collectKeys_nil, collectKeys_cons_none, jget,
    Json.asStr, embed0, String.intercalate, String.intercalate.go, item0bad, itemBbad]

theorem jBad_eval :
    collectItems embed0 jBad [] [] ItemType.unknown = .ok ([item0bad, itemBbad], []) := by
  rw [jBad, collectItems_obj_child embed0 "" (Json.obj [("name", Json.str "B")]) [] []
    ItemType.unknown [] rfl]
  show (match collectItems embed0 (Json.obj [("name", Json.str "B")]) [item0bad] [""]
      ItemType.world with
    | Except.error e => Except.error e
    | Except.ok (out2, path2) => Except.ok (out2, path2.dropLast))
    = Except.ok ([item0bad, itemBbad], [])
  rw [jBad_inner_eval]
  rfl

/-- Symbolic unfolding of `loadFromJsonValue`; keeping the corpus a
variable keeps the right-hand side inert. -/
theorem loadFromJsonValue_eq (embed : Embed) (eng : Engine) (json : Json) :
    loadFromJsonValue embed eng json
      = (match collectItems embed json [] [] ItemType.unknown with
         | .error e => (eng, .error e)
         | .ok (items, _) =>
           if items.isEmpty then
             (eng, .error "No items found in JSON. Ensure objects have a 'name' field.")
           else
             let hnsw := items.map (fun it => (it.vec, it.id))
             ({ items := items, index := some hnsw }, .ok ())) := rfl

theorem loadBad_eval :
    loadFromJsonValue embed0 eng0 jBad = (engBad, .ok ()) := by
  rw [loadFromJsonValue_eq, jBad_eval]
  rfl

theorem jGood_inner_eval :
    collectItems embed0 (Json.obj [("name", Json.str "B")]) [itemAg] ["A"] ItemType.world
      = .ok ([itemAg, itemBg], ["A"]) := by
  simp [collectItems, hierarchyKeys, collectKeys_nil, collectKeys_cons_none, jget,
    Json.asStr, embed0, String.intercalate, String.intercalate.go, itemAg, itemBg]

theorem jGood_eval :
    collectItems embed0 jGood [] [] ItemType.unknown = .ok ([itemAg, itemBg], []) := by
  rw [jGood, collectItems_obj_child embed0 "A" (Json.obj [("name", Json.str "B")]) [] []
    ItemType.unknown [] rfl]
  show (match collectItems embed0 (Json.obj [("name", Json.str "B")]) [itemAg] ["A"]
      ItemType.world with
    | Except.error e => Except.error e
    | Except.ok (out2, path2) => Except.ok (out2, path2.dropLast))
    = Except.ok ([itemAg, itemBg], [])
  rw [jGood_inner_eval]
  rfl

theorem loadGood_eval :
    loadFromJsonValue embed0 eng0 jGood = (engG, .ok ()) := by
  rw [loadFromJsonValue_eq, jGood_eval]
  rfl

/-- C4 corrected: for every item of a successfully loaded corpus in which
every entity name is non-empty and free of the `'>'` character, the depth
equals the number of `" > "` occurrences in `parent_path`, plus 1 when
`parent_path` is non-empty. -/
theorem c4_depth_formula (embed : Embed) (eng eng' : Engine) (j : Json)
    (hload : loadFromJsonValue embed eng j = (eng', .ok ()))
    (hns : NamesSat GoodName j) :
    ∀ it ∈ eng'.items, DepthFormula it := by
  cases hc : collectItems embed j [] [] .unknown with
  | error e => simp [loadFromJsonValue, hc] at hload
  | ok r =>
    obtain ⟨items, p⟩ := r
    by_cases hi : items.isEmpty
    · simp [loadFromJsonValue, hc, hi] at hload
    · have hsat := (collectItems_inv embed j [] [] .unknown items p hc).2.2 GoodName hns
        (by simp) (by simp)
      simp [loadFromJsonValue, hc, hi, Prod.ext_iff] at hload
      intro it hit
      rw [← hload] at hit
      obtain ⟨-, q, hq, hpp, hlev⟩ := hsat it hit
      rw [DepthFormula, hpp, hlev]
      cases q with
      | nil => simp [String.intercalate, countOccS, countOcc]
      | cons a as =>
        have hanil : a.data ≠ [] := by
          intro hd
          exact (hq a (List.mem_cons_self _ _)).1 (String.ext hd)
        have hne : String.intercalate " > " (a :: as) ≠ "" := by
          intro hh
          have hdata : (String.intercalate " > " (a :: as)).data = [] := by
            rw [hh]
          rw [intercalate_data_cons] at hdata
          exact hanil (List.append_eq_nil.1 hdata).1
        rw [if_neg hne, countOcc_join hq (by simp)]
        simp only [List.length_cons]
        omega

/-- C4 counterexample: the corpus `{"name": "", "worlds": {"name": "B"}}`
loads successfully, and the item for `"B"` has depth 1 while its parent
path is the empty string (its sole ancestor name is empty), so depth does
not equal occurrences of `" > "` plus 1. -/
theorem c4_counterexample :
    (loadFromJsonValue embed0 eng0 jBad).2 = .ok () ∧
    ¬ (∀ it ∈ (loadFromJsonValue embed0 eng0 jBad).1.items, DepthFormula it) := by
  constructor
  · rw [loadBad_eval]
  · intro hall
    have h2 : DepthFormula itemBbad := by
      apply hall
      rw [loadBad_eval]
      simp [engBad]
    simp [DepthFormula, itemBbad, countOccS, countOcc] at h2

/-- Witness for the amended C4 theorem at a well-behaved corpus. -/
theorem c4_depth_formula_witness :
    loadFromJsonValue embed0 eng0 jGood = (engG, .ok ()) ∧
    NamesSat GoodName jGood ∧
    ∀ it ∈ engG.items, DepthFormula it := by
  have h2 : NamesSat GoodName jGood := by
    rw [jGood, NamesSat]
    constructor
    · intro n hn
      simp [jget] at hn
      rw [← hn]
      exact ⟨by decide, by decide⟩
    · intro kv hkv
      simp at hkv
      rcases hkv with hkv | hkv
      · rw [hkv]
        show NamesSat GoodName (Json.str "A")
        simp [NamesSat]
      · rw [hkv]
        show NamesSat GoodName (Json.obj [("name", Json.str "B")])
        rw [NamesSat]
        constructor
        · intro n hn
          simp [jget] at hn
          rw [← hn]
          exact ⟨by decide, by decide⟩
        · intro kv2 hkv2
          simp at hkv2
          rw [hkv2]
          show NamesSat GoodName (Json.str "B")
          simp [NamesSat]
  exact ⟨loadGood_eval, h2,
    c4_depth_formula embed0 eng0 engG jGood loadGood_eval h2⟩

end LoreRag
